import Mathlib

set_option maxRecDepth 100000

/-!
Shallow embedding of the repository's two hash engines: the BLAKE2b
(64-bit word) variant from `blake2b/blake2b.go` and the BLAKE2s (32-bit
word) variant.  Machine words are `Nat` reduced modulo `2 ^ 64`
(respectively `2 ^ 32`); byte buffers are `List Nat`; Go slice
expressions that can panic at runtime are modelled with `Option`
(`none` = panic).
-/

/-- Go `copy(dst[off:], src)`: overwrite `dst` starting at position `off`
with `min src.length (dst.length - off)` bytes of `src`; the length of
`dst` is preserved. -/
def setRange (dst : List Nat) (off : Nat) (src : List Nat) : List Nat :=
  dst.take off ++ src.take (dst.length - off) ++
    dst.drop (off + min src.length (dst.length - off))

/-- Model of `binary.LittleEndian.Uint64` / `Uint32`: read the first `nb` bytes of
`l` as a little-endian number. -/
def leRead (nb : Nat) (l : List Nat) : Nat :=
  (List.range nb).foldr (fun i acc => acc * 256 + l.getD i 0) 0

/-- Model of `binary.LittleEndian.PutUint64` / `PutUint32`: serialize a word as
`nb` little-endian bytes. -/
def leWrite (nb : Nat) (w : Nat) : List Nat :=
  (List.range nb).map (fun i => (w >>> (8 * i)) % 256)

namespace Blake2b

/-- The Blake2b blocksize in bytes. -/
def BlockSize : Nat := 128

/-- The Blake2b maximum key size. -/
def KeySize : Nat := 64

/-- Modulus of `uint64` arithmetic. -/
def M : Nat := 2 ^ 64

/-- The Blake2b IV. -/
def iv : Nat → Nat
  | 0 => 0x6a09e667f3bcc908
  | 1 => 0xbb67ae8584caa73b
  | 2 => 0x3c6ef372fe94f82b
  | 3 => 0xa54ff53a5f1d36f1
  | 4 => 0x510e527fade682d1
  | 5 => 0x9b05688c2b3e6c1f
  | 6 => 0x1f83d9abfb41bd6b
  | 7 => 0x5be0cd19137e2179
  | _ => 0

/-- The 12-row permutation table `sigma` of the 64-bit source file. -/
def sigma : List (List Nat) :=
  [[0, 1, 2, 3, 4, 5, 6, 7, 8, 9, 10, 11, 12, 13, 14, 15],
   [14, 10, 4, 8, 9, 15, 13, 6, 1, 12, 0, 2, 11, 7, 5, 3],
   [11, 8, 12, 0, 5, 2, 15, 13, 10, 14, 3, 6, 7, 1, 9, 4],
   [7, 9, 3, 1, 13, 12, 11, 14, 2, 6, 5, 10, 4, 0, 15, 8],
   [9, 0, 5, 7, 2, 4, 10, 15, 14, 1, 11, 12, 6, 8, 3, 13],
   [2, 12, 6, 10, 0, 11, 8, 3, 4, 13, 7, 5, 15, 14, 1, 9],
   [12, 5, 1, 15, 14, 13, 4, 10, 0, 7, 6, 3, 9, 2, 8, 11],
   [13, 11, 7, 14, 12, 1, 3, 9, 5, 0, 15, 4, 8, 6, 2, 10],
   [6, 15, 14, 9, 11, 3, 0, 8, 12, 2, 13, 7, 1, 4, 10, 5],
   [10, 2, 8, 4, 7, 6, 1, 5, 15, 11, 9, 14, 3, 12, 13, 0],
   [0, 1, 2, 3, 4, 5, 6, 7, 8, 9, 10, 11, 12, 13, 14, 15],
   [14, 10, 4, 8, 9, 15, 13, 6, 1, 12, 0, 2, 11, 7, 5, 3]]

/-- Lookup `sigma[r][i]`. -/
def sig (r i : Nat) : Nat := (sigma.getD r []).getD i 0

/-- The `digest` struct of the source.  The `key` field is modelled as an
explicit argument of `resetWith` (its only reader); `cnt` is a ghost
counter of `compress` calls used to state compression-count properties. -/
structure Digest where
  h : List Nat
  t0 : Nat
  t1 : Nat
  f0 : Nat
  f1 : Nat
  buf : List Nat
  buflen : Nat
  cnt : Nat
  deriving Repr, DecidableEq

/-- Function `rotr64` from the source: `(w >> c) | (w << (64 - c))` in `uint64`. -/
def rotr64 (w c : Nat) : Nat := ((w >>> c) ||| (w <<< (64 - c))) % M

/-- The closure `G` of `compress`, with the two selected message words
passed as `x` and `y`; the four in-place updates of `v` are sequential
`List.set`s exactly as in the source. -/
def G (x y : Nat) (v : List Nat) (a b c d : Nat) : List Nat :=
  let v := v.set a ((v.getD a 0 + v.getD b 0 + x) % M)
  let v := v.set d (rotr64 (Nat.xor (v.getD d 0) (v.getD a 0)) 32)
  let v := v.set c ((v.getD c 0 + v.getD d 0) % M)
  let v := v.set b (rotr64 (Nat.xor (v.getD b 0) (v.getD c 0)) 24)
  let v := v.set a ((v.getD a 0 + v.getD b 0 + y) % M)
  let v := v.set d (rotr64 (Nat.xor (v.getD d 0) (v.getD a 0)) 16)
  let v := v.set c ((v.getD c 0 + v.getD d 0) % M)
  let v := v.set b (rotr64 (Nat.xor (v.getD b 0) (v.getD c 0)) 63)
  v

/-- One iteration of the round loop of `compress`: the eight `G` calls
in source order. -/
def roundFn (m : Nat → Nat) (r : Nat) (v : List Nat) : List Nat :=
  let v := G (m (sig r 0)) (m (sig r 1)) v 0 4 8 12
  let v := G (m (sig r 2)) (m (sig r 3)) v 1 5 9 13
  let v := G (m (sig r 4)) (m (sig r 5)) v 2 6 10 14
  let v := G (m (sig r 6)) (m (sig r 7)) v 3 7 11 15
  let v := G (m (sig r 8)) (m (sig r 9)) v 0 5 10 15
  let v := G (m (sig r 10)) (m (sig r 11)) v 1 6 11 12
  let v := G (m (sig r 12)) (m (sig r 13)) v 2 7 8 13
  let v := G (m (sig r 14)) (m (sig r 15)) v 3 4 9 14
  v

/-- Function `compress` from the source: reads the first 16 words of `d.buf`,
builds the work vector `v`, runs 12 rounds, and folds `v` back into `h`.
Only `h` (and the ghost `cnt`) change. -/
def compress (d : Digest) : Digest :=
  let m := fun i => leRead 8 (d.buf.drop (8 * i))
  let v : List Nat :=
    (List.range 8).map (fun i => d.h.getD i 0) ++
      [iv 0, iv 1, iv 2, iv 3, Nat.xor d.t0 (iv 4), Nat.xor d.t1 (iv 5),
       Nat.xor d.f0 (iv 6), Nat.xor d.f1 (iv 7)]
  let v := (List.range 12).foldl (fun v r => roundFn m r v) v
  { d with
    h := (List.range 8).map
      (fun i => Nat.xor (Nat.xor (d.h.getD i 0) (v.getD i 0)) (v.getD (i + 8) 0))
    cnt := d.cnt + 1 }

/-- Function `incrementCounter` from the source: `t[0] += inc`, and on wraparound
`t[1]--` (the `uint64` decrement is modelled as adding `M - 1` mod `M`). -/
def incrementCounter (d : Digest) (inc : Nat) : Digest :=
  let t0 := (d.t0 + inc) % M
  if t0 < inc then { d with t0 := t0, t1 := (d.t1 + (M - 1)) % M }
  else { d with t0 := t0 }

/-- The loop of `Write`.  `orig` is the whole argument slice; `offset`
and `inlen` are the loop variables of the source.  The slice expressions
`d.buf[left:]` and `buf[:fill]` yield `none` (runtime panic) when out of
range.  Note the source copies `buf[:fill]`, ignoring `offset`.  The two
`buflen` updates of the compressing branch (`+= fill` then
`-= BlockSize`) are composed into one. -/
def writeLoop (orig : List Nat) (d : Digest) (offset inlen : Nat) : Option Digest :=
  if inlen = 0 then some d
  else
    let left := d.buflen
    if 2 * BlockSize < left then none
    else
      let fill := 2 * BlockSize - left
      if fill < inlen then
        if orig.length < fill then none
        else
          let d1 : Digest :=
            { d with buf := setRange d.buf left (orig.take fill), buflen := d.buflen + fill }
          let d2 := incrementCounter d1 BlockSize
          let d3 := compress d2
          let d4 : Digest :=
            { d3 with buf := setRange d3.buf 0 ((d3.buf.drop BlockSize).take BlockSize),
                      buflen := d.buflen + fill - BlockSize }
          writeLoop orig d4 (offset + fill) (inlen - fill)
      else
        if orig.length < offset then none
        else
          some { d with buf := setRange d.buf left ((orig.drop offset).take fill),
                        buflen := d.buflen + inlen }
termination_by 2 * inlen + (if 2 * BlockSize ≤ d.buflen then 1 else 0)
decreasing_by
  simp only [BlockSize] at *
  split <;> split <;> omega

/-- Function `Write` from the source: returns the new state together with the Go
return value, which is always `(0, nil)`; `none` models a panic. -/
def write (d : Digest) (buf : List Nat) : Option (Digest × Nat × Option Unit) :=
  (writeLoop buf d 0 buf.length).map (fun d' => (d', 0, none))

/-- Function `Reset` on a freshly allocated `digest` struct whose `key` field is
`key` (this composite models `New`/`NewKeyed`, which zero the struct and
call `Reset`).  An over-length key is truncated to `KeySize` bytes; the
key block is absorbed through `Write`, whose `getD` default branch is
unreachable there. -/
def resetWith (key : List Nat) : Digest :=
  let keylen := if KeySize < key.length then KeySize else key.length
  let p := [64, keylen, 1, 1] ++ List.replicate (BlockSize - 4) 0
  let d : Digest :=
    { h := (List.range 8).map (fun i => Nat.xor (iv i) (leRead 8 (p.drop (8 * i))))
      t0 := 0, t1 := 0, f0 := 0, f1 := 0
      buf := List.replicate (2 * BlockSize) 0
      buflen := 0, cnt := 0 }
  if 0 < keylen then
    let block := setRange (List.replicate BlockSize 0) 0 (key.take keylen)
    ((write d block).map Prod.fst).getD d
  else d

/-- Constructor `New()`. -/
def new : Digest := resetWith []

/-- Constructor `NewKeyed(key)`. -/
def newKeyed (key : List Nat) : Digest := resetWith key

/-- Function `Sum` from the source: an optional catch-up compression when more
than one block is buffered, counter update, setting `f[0]`, zero-padding,
the final compression, and little-endian serialization of `h` appended
to `pre`. -/
def sum (d : Digest) (pre : List Nat) : Digest × List Nat :=
  let d :=
    if BlockSize < d.buflen then
      let d1 := incrementCounter d BlockSize
      let d2 := compress d1
      let bl := d2.buflen - BlockSize
      { d2 with buflen := bl, buf := setRange d2.buf 0 ((d2.buf.drop BlockSize).take bl) }
    else d
  let d := incrementCounter d d.buflen
  let d : Digest := { d with f0 := 0xffffffffffffffff }
  let d : Digest :=
    { d with buf := setRange d.buf d.buflen (List.replicate (2 * BlockSize - d.buflen) 0) }
  let d := compress d
  (d, pre ++ (List.range 8).foldr (fun i acc => leWrite 8 (d.h.getD i 0) ++ acc) [])

/-- The digest of a single message hashed on a fresh engine with key
`key`: `NewKeyed(key)`, one `Write`, one `Sum` (`none` = panic). -/
def hashKeyed (key msg : List Nat) : Option (List Nat) :=
  (write (newKeyed key) msg).map (fun r => (sum r.1 []).2)

/-- The digest of a single message on a fresh unkeyed engine. -/
def hash (msg : List Nat) : Option (List Nat) := (write new msg).map (fun r => (sum r.1 []).2)

end Blake2b

namespace Blake2s

/-- The Blake2s blocksize in bytes. -/
def BlockSize : Nat := 64

/-- The Blake2s maximum key size. -/
def KeySize : Nat := 32

/-- Modulus of `uint32` arithmetic. -/
def M : Nat := 2 ^ 32

/-- The Blake2s IV. -/
def iv : Nat → Nat
  | 0 => 0x6A09E667
  | 1 => 0xBB67AE85
  | 2 => 0x3C6EF372
  | 3 => 0xA54FF53A
  | 4 => 0x510E527F
  | 5 => 0x9B05688C
  | 6 => 0x1F83D9AB
  | 7 => 0x5BE0CD19
  | _ => 0

/-- The 10-row permutation table `sigma` of the 32-bit source file. -/
def sigma : List (List Nat) :=
  [[0, 1, 2, 3, 4, 5, 6, 7, 8, 9, 10, 11, 12, 13, 14, 15],
   [14, 10, 4, 8, 9, 15, 13, 6, 1, 12, 0, 2, 11, 7, 5, 3],
   [11, 8, 12, 0, 5, 2, 15, 13, 10, 14, 3, 6, 7, 1, 9, 4],
   [7, 9, 3, 1, 13, 12, 11, 14, 2, 6, 5, 10, 4, 0, 15, 8],
   [9, 0, 5, 7, 2, 4, 10, 15, 14, 1, 11, 12, 6, 8, 3, 13],
   [2, 12, 6, 10, 0, 11, 8, 3, 4, 13, 7, 5, 15, 14, 1, 9],
   [12, 5, 1, 15, 14, 13, 4, 10, 0, 7, 6, 3, 9, 2, 8, 11],
   [13, 11, 7, 14, 12, 1, 3, 9, 5, 0, 15, 4, 8, 6, 2, 10],
   [6, 15, 14, 9, 11, 3, 0, 8, 12, 2, 13, 7, 1, 4, 10, 5],
   [10, 2, 8, 4, 7, 6, 1, 5, 15, 11, 9, 14, 3, 12, 13, 0]]

/-- Lookup `sigma[r][i]`. -/
def sig (r i : Nat) : Nat := (sigma.getD r []).getD i 0

/-- The `digest` struct of the 32-bit source, modelled as for the 64-bit
variant. -/
structure Digest where
  h : List Nat
  t0 : Nat
  t1 : Nat
  f0 : Nat
  f1 : Nat
  buf : List Nat
  buflen : Nat
  cnt : Nat
  deriving Repr, DecidableEq

/-- Function `rotr32` from the source: `(w >> c) | (w << (32 - c))` in `uint32`. -/
def rotr32 (w c : Nat) : Nat := ((w >>> c) ||| (w <<< (32 - c))) % M

/-- The closure `G` of the 32-bit `compress`, with rotation amounts
16, 12, 8, 7. -/
def G (x y : Nat) (v : List Nat) (a b c d : Nat) : List Nat :=
  let v := v.set a ((v.getD a 0 + v.getD b 0 + x) % M)
  let v := v.set d (rotr32 (Nat.xor (v.getD d 0) (v.getD a 0)) 16)
  let v := v.set c ((v.getD c 0 + v.getD d 0) % M)
  let v := v.set b (rotr32 (Nat.xor (v.getD b 0) (v.getD c 0)) 12)
  let v := v.set a ((v.getD a 0 + v.getD b 0 + y) % M)
  let v := v.set d (rotr32 (Nat.xor (v.getD d 0) (v.getD a 0)) 8)
  let v := v.set c ((v.getD c 0 + v.getD d 0) % M)
  let v := v.set b (rotr32 (Nat.xor (v.getD b 0) (v.getD c 0)) 7)
  v

/-- One iteration of the round loop of the 32-bit `compress`. -/
def roundFn (m : Nat → Nat) (r : Nat) (v : List Nat) : List Nat :=
  let v := G (m (sig r 0)) (m (sig r 1)) v 0 4 8 12
  let v := G (m (sig r 2)) (m (sig r 3)) v 1 5 9 13
  let v := G (m (sig r 4)) (m (sig r 5)) v 2 6 10 14
  let v := G (m (sig r 6)) (m (sig r 7)) v 3 7 11 15
  let v := G (m (sig r 8)) (m (sig r 9)) v 0 5 10 15
  let v := G (m (sig r 10)) (m (sig r 11)) v 1 6 11 12
  let v := G (m (sig r 12)) (m (sig r 13)) v 2 7 8 13
  let v := G (m (sig r 14)) (m (sig r 15)) v 3 4 9 14
  v

/-- The 32-bit `compress`: 16 little-endian `uint32` message words,
10 rounds.  Only `h` (and the ghost `cnt`) change. -/
def compress (d : Digest) : Digest :=
  let m := fun i => leRead 4 (d.buf.drop (4 * i))
  let v : List Nat :=
    (List.range 8).map (fun i => d.h.getD i 0) ++
      [iv 0, iv 1, iv 2, iv 3, Nat.xor d.t0 (iv 4), Nat.xor d.t1 (iv 5),
       Nat.xor d.f0 (iv 6), Nat.xor d.f1 (iv 7)]
  let v := (List.range 10).foldl (fun v r => roundFn m r v) v
  { d with
    h := (List.range 8).map
      (fun i => Nat.xor (Nat.xor (d.h.getD i 0) (v.getD i 0)) (v.getD (i + 8) 0))
    cnt := d.cnt + 1 }

/-- The 32-bit `incrementCounter`: `t[0] += inc`, and on wraparound
`t[1]--` (modelled as adding `M - 1` mod `M`). -/
def incrementCounter (d : Digest) (inc : Nat) : Digest :=
  let t0 := (d.t0 + inc) % M
  if t0 < inc then { d with t0 := t0, t1 := (d.t1 + (M - 1)) % M }
  else { d with t0 := t0 }

/-- The loop of the 32-bit `Write`.  Here the source copies
`buf[offset:fill]`: a Go slice with `offset > fill` panics (`none`), and
when it does not panic it has only `fill - offset` bytes.  The two
`buflen` updates of the compressing branch are composed into one. -/
def writeLoop (orig : List Nat) (d : Digest) (offset inlen : Nat) : Option Digest :=
  if inlen = 0 then some d
  else
    let left := d.buflen
    if 2 * BlockSize < left then none
    else
      let fill := 2 * BlockSize - left
      if fill < inlen then
        if fill < offset ∨ orig.length < fill then none
        else
          let d1 : Digest :=
            { d with buf := setRange d.buf left ((orig.take fill).drop offset),
                     buflen := d.buflen + fill }
          let d2 := incrementCounter d1 BlockSize
          let d3 := compress d2
          let d4 : Digest :=
            { d3 with buf := setRange d3.buf 0 ((d3.buf.drop BlockSize).take BlockSize),
                      buflen := d.buflen + fill - BlockSize }
          writeLoop orig d4 (offset + fill) (inlen - fill)
      else
        if orig.length < offset then none
        else
          some { d with buf := setRange d.buf left ((orig.drop offset).take fill),
                        buflen := d.buflen + inlen }
termination_by 2 * inlen + (if 2 * BlockSize ≤ d.buflen then 1 else 0)
decreasing_by
  simp only [BlockSize] at *
  split <;> split <;> omega

/-- The 32-bit `Write`: the Go return value is always `(0, nil)`;
`none` models a panic. -/
def write (d : Digest) (buf : List Nat) : Option (Digest × Nat × Option Unit) :=
  (writeLoop buf d 0 buf.length).map (fun d' => (d', 0, none))

/-- The 32-bit `Reset` on a freshly allocated struct with key `key`
(parameter byte 0 is the digest size 32). -/
def resetWith (key : List Nat) : Digest :=
  let keylen := if KeySize < key.length then KeySize else key.length
  let p := [32, keylen, 1, 1] ++ List.replicate (BlockSize - 4) 0
  let d : Digest :=
    { h := (List.range 8).map (fun i => Nat.xor (iv i) (leRead 4 (p.drop (4 * i))))
      t0 := 0, t1 := 0, f0 := 0, f1 := 0
      buf := List.replicate (2 * BlockSize) 0
      buflen := 0, cnt := 0 }
  if 0 < keylen then
    let block := setRange (List.replicate BlockSize 0) 0 (key.take keylen)
    ((write d block).map Prod.fst).getD d
  else d

/-- Constructor `New()`. -/
def new : Digest := resetWith []

/-- Constructor `NewKeyed(key)`. -/
def newKeyed (key : List Nat) : Digest := resetWith key

/-- The 32-bit `Sum` (`f[0]` is set to `0xffffffff`). -/
def sum (d : Digest) (pre : List Nat) : Digest × List Nat :=
  let d :=
    if BlockSize < d.buflen then
      let d1 := incrementCounter d BlockSize
      let d2 := compress d1
      let bl := d2.buflen - BlockSize
      { d2 with buflen := bl, buf := setRange d2.buf 0 ((d2.buf.drop BlockSize).take bl) }
    else d
  let d := incrementCounter d d.buflen
  let d : Digest := { d with f0 := 0xffffffff }
  let d : Digest :=
    { d with buf := setRange d.buf d.buflen (List.replicate (2 * BlockSize - d.buflen) 0) }
  let d := compress d
  (d, pre ++ (List.range 8).foldr (fun i acc => leWrite 4 (d.h.getD i 0) ++ acc) [])

/-- The digest of a single message on a fresh engine with key `key`. -/
def hashKeyed (key msg : List Nat) : Option (List Nat) :=
  (write (newKeyed key) msg).map (fun r => (sum r.1 []).2)

/-- The digest of a single message on a fresh unkeyed engine. -/
def hash (msg : List Nat) : Option (List Nat) := (write new msg).map (fun r => (sum r.1 []).2)

end Blake2s

namespace Blake2b

/-- Following the spec (§4.4): the sigma row of round `r` of the wide
variant is row `r % 10` of the fixed 10-row permutation table ("12 rows
for the wide variant reusing rows 0–1 as rows 10–11"); the 10-row table
is the one the narrow variant's source lists. -/
def sigSpec (r i : Nat) : Nat := (Blake2s.sigma.getD (r % 10) []).getD i 0

/-- Following the spec (§4.4): the mixing step over indices `(a,b,c,d)`
with message words `(x,y)`, with all arithmetic modulo `2 ^ 64` and
rotation amounts `(R1,R2,R3,R4) = (32,24,16,63)` for width 64. -/
def mixSpec (x y : Nat) (v : List Nat) (a b c d : Nat) : List Nat :=
  let v := v.set a ((v.getD a 0 + v.getD b 0 + x) % M)
  let v := v.set d (rotr64 (Nat.xor (v.getD d 0) (v.getD a 0)) 32)
  let v := v.set c ((v.getD c 0 + v.getD d 0) % M)
  let v := v.set b (rotr64 (Nat.xor (v.getD b 0) (v.getD c 0)) 24)
  let v := v.set a ((v.getD a 0 + v.getD b 0 + y) % M)
  let v := v.set d (rotr64 (Nat.xor (v.getD d 0) (v.getD a 0)) 16)
  let v := v.set c ((v.getD c 0 + v.getD d 0) % M)
  let v := v.set b (rotr64 (Nat.xor (v.getD b 0) (v.getD c 0)) 63)
  v

/-- Following the spec (§4.4): one round applies the mixing step eight
times, over the four column groups then the four diagonal groups, with
the two message words of each step selected by round `r`'s sigma row. -/
def roundSpec (m : Nat → Nat) (r : Nat) (v : List Nat) : List Nat :=
  let v := mixSpec (m (sigSpec r 0)) (m (sigSpec r 1)) v 0 4 8 12
  let v := mixSpec (m (sigSpec r 2)) (m (sigSpec r 3)) v 1 5 9 13
  let v := mixSpec (m (sigSpec r 4)) (m (sigSpec r 5)) v 2 6 10 14
  let v := mixSpec (m (sigSpec r 6)) (m (sigSpec r 7)) v 3 7 11 15
  let v := mixSpec (m (sigSpec r 8)) (m (sigSpec r 9)) v 0 5 10 15
  let v := mixSpec (m (sigSpec r 10)) (m (sigSpec r 11)) v 1 6 11 12
  let v := mixSpec (m (sigSpec r 12)) (m (sigSpec r 13)) v 2 7 8 13
  let v := mixSpec (m (sigSpec r 14)) (m (sigSpec r 15)) v 3 4 9 14
  v

/-- Following the spec (§4.4): the new chaining value of one compression
of the wide variant.  Build `v[0..8) = h`, `v[8..12) = IV[0..4)`,
`v[12] = t0 XOR IV[4]`, `v[13] = t1 XOR IV[5]`, `v[14] = f0 XOR IV[6]`,
`v[15] = f1 XOR IV[7]`; run `R = 12` rounds; afterwards
`h[i] = h[i] XOR v[i] XOR v[i+8]` for `i` in `0..8`. -/
def specNewH (h : List Nat) (m : Nat → Nat) (t0 t1 f0 f1 : Nat) : List Nat :=
  let v : List Nat :=
    (List.range 8).map (fun i => h.getD i 0) ++
      [iv 0, iv 1, iv 2, iv 3, Nat.xor t0 (iv 4), Nat.xor t1 (iv 5),
       Nat.xor f0 (iv 6), Nat.xor f1 (iv 7)]
  let v := (List.range 12).foldl (fun v r => roundSpec m r v) v
  (List.range 8).map (fun i => Nat.xor (Nat.xor (h.getD i 0) (v.getD i 0)) (v.getD (i + 8) 0))

end Blake2b

namespace Blake2s

/-- Following the spec (§4.4): the sigma table of the narrow variant has
10 rows with period 10: the row of round `r` is row `r % 10`. -/
def sigSpec (r i : Nat) : Nat := (sigma.getD (r % 10) []).getD i 0

/-- Following the spec (§4.4): the mixing step with all arithmetic modulo
`2 ^ 32` and rotation amounts `(R1,R2,R3,R4) = (16,12,8,7)` for
width 32. -/
def mixSpec (x y : Nat) (v : List Nat) (a b c d : Nat) : List Nat :=
  let v := v.set a ((v.getD a 0 + v.getD b 0 + x) % M)
  let v := v.set d (rotr32 (Nat.xor (v.getD d 0) (v.getD a 0)) 16)
  let v := v.set c ((v.getD c 0 + v.getD d 0) % M)
  let v := v.set b (rotr32 (Nat.xor (v.getD b 0) (v.getD c 0)) 12)
  let v := v.set a ((v.getD a 0 + v.getD b 0 + y) % M)
  let v := v.set d (rotr32 (Nat.xor (v.getD d 0) (v.getD a 0)) 8)
  let v := v.set c ((v.getD c 0 + v.getD d 0) % M)
  let v := v.set b (rotr32 (Nat.xor (v.getD b 0) (v.getD c 0)) 7)
  v

/-- Following the spec (§4.4): one round of the narrow variant. -/
def roundSpec (m : Nat → Nat) (r : Nat) (v : List Nat) : List Nat :=
  let v := mixSpec (m (sigSpec r 0)) (m (sigSpec r 1)) v 0 4 8 12
  let v := mixSpec (m (sigSpec r 2)) (m (sigSpec r 3)) v 1 5 9 13
  let v := mixSpec (m (sigSpec r 4)) (m (sigSpec r 5)) v 2 6 10 14
  let v := mixSpec (m (sigSpec r 6)) (m (sigSpec r 7)) v 3 7 11 15
  let v := mixSpec (m (sigSpec r 8)) (m (sigSpec r 9)) v 0 5 10 15
  let v := mixSpec (m (sigSpec r 10)) (m (sigSpec r 11)) v 1 6 11 12
  let v := mixSpec (m (sigSpec r 12)) (m (sigSpec r 13)) v 2 7 8 13
  let v := mixSpec (m (sigSpec r 14)) (m (sigSpec r 15)) v 3 4 9 14
  v

/-- Following the spec (§4.4): the new chaining value of one compression
of the narrow variant (`R = 10` rounds). -/
def specNewH (h : List Nat) (m : Nat → Nat) (t0 t1 f0 f1 : Nat) : List Nat :=
  let v : List Nat :=
    (List.range 8).map (fun i => h.getD i 0) ++
      [iv 0, iv 1, iv 2, iv 3, Nat.xor t0 (iv 4), Nat.xor t1 (iv 5),
       Nat.xor f0 (iv 6), Nat.xor f1 (iv 7)]
  let v := (List.range 10).foldl (fun v r => roundSpec m r v) v
  (List.range 8).map (fun i => Nat.xor (Nat.xor (h.getD i 0) (v.getD i 0)) (v.getD (i + 8) 0))

end Blake2s

/-- The 385-byte message whose bytes are the block index `i / 128`:
blocks 0 and 1 are all-zero, block 2 is all-2, byte 384 is 3.  Its first
and third 128-byte blocks differ, which exposes the `buf[:fill]` copy
of the 64-bit `Write`. -/
def m385 : List Nat := (List.range 385).map (fun i => i / 128)

/-- Absorbing `a`, then `b`, then finalizing, on a fresh unkeyed 64-bit
engine (`none` = panic in either `Write`). -/
def Blake2b.hashSplit (a b : List Nat) : Option (List Nat) :=
  (Blake2b.write Blake2b.new a).bind (fun r1 =>
    (Blake2b.write r1.1 b).map (fun r2 => (Blake2b.sum r2.1 []).2))

/-- Fuel-indexed, structurally recursive evaluator for
`Blake2b.writeLoop`; with enough fuel it computes the same function
(see `Blake2b.writeLoopF_eq`), and being structural it reduces inside
`decide`. -/
def Blake2b.writeLoopF : Nat → List Nat → Blake2b.Digest → Nat → Nat → Option Blake2b.Digest
  | 0, _, _, _, _ => none
  | fuel + 1, orig, d, offset, inlen =>
    if inlen = 0 then some d
    else
      let left := d.buflen
      if 2 * Blake2b.BlockSize < left then none
      else
        let fill := 2 * Blake2b.BlockSize - left
        if fill < inlen then
          if orig.length < fill then none
          else
            let d1 : Blake2b.Digest :=
              { d with buf := setRange d.buf left (orig.take fill), buflen := d.buflen + fill }
            let d2 := Blake2b.incrementCounter d1 Blake2b.BlockSize
            let d3 := Blake2b.compress d2
            let d4 : Blake2b.Digest :=
              { d3 with
                  buf := setRange d3.buf 0 ((d3.buf.drop Blake2b.BlockSize).take Blake2b.BlockSize),
                  buflen := d.buflen + fill - Blake2b.BlockSize }
            Blake2b.writeLoopF fuel orig d4 (offset + fill) (inlen - fill)
        else
          if orig.length < offset then none
          else
            some { d with buf := setRange d.buf left ((orig.drop offset).take fill),
                          buflen := d.buflen + inlen }

/-- Fuel-based form of `Blake2b.write` (see `Blake2b.write_eq_writeF`). -/
def Blake2b.writeF (d : Blake2b.Digest) (buf : List Nat) : Option (Blake2b.Digest × Nat × Option Unit) :=
  (Blake2b.writeLoopF (2 * buf.length + 2) buf d 0 buf.length).map (fun d' => (d', 0, none))

/-- Fuel-indexed, structurally recursive evaluator for
`Blake2s.writeLoop` (see `Blake2s.writeLoopF_eq32`). -/
def Blake2s.writeLoopF : Nat → List Nat → Blake2s.Digest → Nat → Nat → Option Blake2s.Digest
  | 0, _, _, _, _ => none
  | fuel + 1, orig, d, offset, inlen =>
    if inlen = 0 then some d
    else
      let left := d.buflen
      if 2 * Blake2s.BlockSize < left then none
      else
        let fill := 2 * Blake2s.BlockSize - left
        if fill < inlen then
          if fill < offset ∨ orig.length < fill then none
          else
            let d1 : Blake2s.Digest :=
              { d with buf := setRange d.buf left ((orig.take fill).drop offset),
                       buflen := d.buflen + fill }
            let d2 := Blake2s.incrementCounter d1 Blake2s.BlockSize
            let d3 := Blake2s.compress d2
            let d4 : Blake2s.Digest :=
              { d3 with
                  buf := setRange d3.buf 0 ((d3.buf.drop Blake2s.BlockSize).take Blake2s.BlockSize),
                  buflen := d.buflen + fill - Blake2s.BlockSize }
            Blake2s.writeLoopF fuel orig d4 (offset + fill) (inlen - fill)
        else
          if orig.length < offset then none
          else
            some { d with buf := setRange d.buf left ((orig.drop offset).take fill),
                          buflen := d.buflen + inlen }

/-- Fuel-based form of `Blake2s.write` (see `Blake2s.write_eq_writeF32`). -/
def Blake2s.writeF (d : Blake2s.Digest) (buf : List Nat) : Option (Blake2s.Digest × Nat × Option Unit) :=
  (Blake2s.writeLoopF (2 * buf.length + 2) buf d 0 buf.length).map (fun d' => (d', 0, none))

/-! ## Helper lemmas -/

/-- With fuel at least the loop's termination measure plus one, the fuel
evaluator agrees with `Blake2b.writeLoop`. -/
theorem Blake2b.writeLoopF_eq (fuel : Nat) :
    ∀ (orig : List Nat) (d : Blake2b.Digest) (offset inlen : Nat),
      2 * inlen + (if 2 * Blake2b.BlockSize ≤ d.buflen then 1 else 0) + 1 ≤ fuel →
      Blake2b.writeLoopF fuel orig d offset inlen = Blake2b.writeLoop orig d offset inlen := by
  induction fuel with
  | zero =>
    intro orig d offset inlen hf
    exact absurd hf (Nat.not_succ_le_zero _)
  | succ fuel ih =>
    intro orig d offset inlen hf
    rw [Blake2b.writeLoop]
    simp only [Blake2b.writeLoopF]
    by_cases h1 : inlen = 0
    · simp only [if_pos h1]
    · simp only [if_neg h1]
      by_cases h2 : 2 * Blake2b.BlockSize < d.buflen
      · simp only [if_pos h2]
      · simp only [if_neg h2]
        by_cases h3 : 2 * Blake2b.BlockSize - d.buflen < inlen
        · simp only [if_pos h3]
          by_cases h4 : orig.length < 2 * Blake2b.BlockSize - d.buflen
          · simp only [if_pos h4]
          · simp only [if_neg h4]
            apply ih
            simp only [Blake2b.BlockSize] at *
            split at hf <;> split <;> omega
        · simp only [if_neg h3]

/-- With fuel at least the loop's termination measure plus one, the fuel
evaluator agrees with `Blake2s.writeLoop`. -/
theorem Blake2s.writeLoopF_eq32 (fuel : Nat) :
    ∀ (orig : List Nat) (d : Blake2s.Digest) (offset inlen : Nat),
      2 * inlen + (if 2 * Blake2s.BlockSize ≤ d.buflen then 1 else 0) + 1 ≤ fuel →
      Blake2s.writeLoopF fuel orig d offset inlen = Blake2s.writeLoop orig d offset inlen := by
  induction fuel with
  | zero =>
    intro orig d offset inlen hf
    exact absurd hf (Nat.not_succ_le_zero _)
  | succ fuel ih =>
    intro orig d offset inlen hf
    rw [Blake2s.writeLoop]
    simp only [Blake2s.writeLoopF]
    by_cases h1 : inlen = 0
    · simp only [if_pos h1]
    · simp only [if_neg h1]
      by_cases h2 : 2 * Blake2s.BlockSize < d.buflen
      · simp only [if_pos h2]
      · simp only [if_neg h2]
        by_cases h3 : 2 * Blake2s.BlockSize - d.buflen < inlen
        · simp only [if_pos h3]
          by_cases h4 : 2 * Blake2s.BlockSize - d.buflen < offset ∨
              orig.length < 2 * Blake2s.BlockSize - d.buflen
          · simp only [if_pos h4]
          · simp only [if_neg h4]
            apply ih
            simp only [Blake2s.BlockSize] at *
            split at hf <;> split <;> omega
        · simp only [if_neg h3]

/-- Evaluation lemma: `write` computes `writeF`. -/
theorem Blake2b.write_eq_writeF (d : Blake2b.Digest) (buf : List Nat) :
    Blake2b.write d buf = Blake2b.writeF d buf := by
  unfold Blake2b.write Blake2b.writeF
  rw [Blake2b.writeLoopF_eq]
  split <;> omega

/-- The 32-bit `write` computes `writeF`. -/
theorem Blake2s.write_eq_writeF32 (d : Blake2s.Digest) (buf : List Nat) :
    Blake2s.write d buf = Blake2s.writeF d buf := by
  unfold Blake2s.write Blake2s.writeF
  rw [Blake2s.writeLoopF_eq32]
  split <;> omega

theorem Blake2b.cnt_incrementCounter (d : Blake2b.Digest) (i : Nat) :
    (Blake2b.incrementCounter d i).cnt = d.cnt := by
  unfold Blake2b.incrementCounter
  dsimp only []
  split <;> rfl

theorem Blake2b.buflen_incrementCounter (d : Blake2b.Digest) (i : Nat) :
    (Blake2b.incrementCounter d i).buflen = d.buflen := by
  unfold Blake2b.incrementCounter
  dsimp only []
  split <;> rfl

theorem Blake2b.cnt_compress (d : Blake2b.Digest) :
    (Blake2b.compress d).cnt = d.cnt + 1 := rfl

theorem Blake2b.buflen_compress (d : Blake2b.Digest) :
    (Blake2b.compress d).buflen = d.buflen := rfl

/-- Counting lemma: `Sum` compresses once more than its catch-up step: once when at most
one block is buffered, twice otherwise. -/
theorem Blake2b.sum_cnt (d : Blake2b.Digest) (pre : List Nat) :
    (Blake2b.sum d pre).1.cnt
      = d.cnt + (if Blake2b.BlockSize < d.buflen then 1 else 0) + 1 := by
  unfold Blake2b.sum
  split
  · simp [Blake2b.cnt_compress, Blake2b.cnt_incrementCounter]
  · simp [Blake2b.cnt_compress, Blake2b.cnt_incrementCounter]

/-- An over-length key is truncated: 64-bit `Reset` with a key longer
than `KeySize` produces exactly the engine of the key's first `KeySize`
bytes. -/
theorem Blake2b.resetWith_truncates (k : List Nat) (hk : Blake2b.KeySize < k.length) :
    Blake2b.resetWith k = Blake2b.resetWith (k.take Blake2b.KeySize) := by
  unfold Blake2b.resetWith
  rw [List.length_take, Nat.min_eq_left (Nat.le_of_lt hk), if_pos hk,
      if_neg (lt_irrefl Blake2b.KeySize)]
  simp only [List.take_take, Nat.min_self, min_self]

/-- An over-length key is truncated, 32-bit variant. -/
theorem Blake2s.resetWith_truncates32 (k : List Nat) (hk : Blake2s.KeySize < k.length) :
    Blake2s.resetWith k = Blake2s.resetWith (k.take Blake2s.KeySize) := by
  unfold Blake2s.resetWith
  rw [List.length_take, Nat.min_eq_left (Nat.le_of_lt hk), if_pos hk,
      if_neg (lt_irrefl Blake2s.KeySize)]
  simp only [List.take_take, Nat.min_self, min_self]

/-! ## Claims -/

/-- Claim C1 (code bug): `incrementCounter` of both variants DECREMENTS the
high counter word on carry.  At `t0 = 2^W - 1`, `t1 = 0`, incrementing
by 1 wraps `t0` to 0 and leaves `t1 = 2^W - 1` where the claim (and the
reference algorithm) require `t1 = 1`. -/
theorem incrementCounter_decrements_on_carry :
    (Blake2b.incrementCounter ⟨[], 2 ^ 64 - 1, 0, 0, 0, [], 0, 0⟩ 1).t0 = 0 ∧
    (Blake2b.incrementCounter ⟨[], 2 ^ 64 - 1, 0, 0, 0, [], 0, 0⟩ 1).t1 = 2 ^ 64 - 1 ∧
    (Blake2s.incrementCounter ⟨[], 2 ^ 32 - 1, 0, 0, 0, [], 0, 0⟩ 1).t0 = 0 ∧
    (Blake2s.incrementCounter ⟨[], 2 ^ 32 - 1, 0, 0, 0, [], 0, 0⟩ 1).t1 = 2 ^ 32 - 1 := by
  decide

/-- Claim C4 (code bug): a single 193-byte `Write` to a fresh 32-bit engine
reaches the slice expression `buf[offset:fill]` with
`offset = 128 > fill = 64`, an out-of-range Go slice: the model panics
(`none`). -/
theorem blake2s_write_panics :
    Blake2s.write Blake2s.new (List.replicate 193 0) = none := by
  rw [Blake2s.write_eq_writeF32]
  decide

/-- Claim C6 (counterexample): after `Sum` on a fresh 64-bit engine, a
further `Write` succeeds, returning `(0, nil)` rather than any error,
and mutates the engine (`buflen` goes from 0 to 1). -/
theorem write_after_sum_succeeds :
    (Blake2b.write (Blake2b.sum Blake2b.new []).1 [97]).map
        (fun r => (r.2.1, r.2.2, r.1.buflen))
      = some (0, none, 1) := by
  rw [Blake2b.write_eq_writeF]
  decide

/-- Claim C6 (amended): the code has no terminal-state check: a second
`Sum` on an already-finalized engine silently returns a different
digest, and `Write` after `Sum` returns `(0, nil)`. -/
theorem no_terminal_state_enforcement :
    (Blake2b.sum (Blake2b.sum Blake2b.new []).1 []).2 ≠ (Blake2b.sum Blake2b.new []).2 ∧
    (Blake2b.write (Blake2b.sum Blake2b.new []).1 [97]).map (fun r => r.2)
      = some (0, none) := by
  rw [Blake2b.write_eq_writeF]
  decide

/-- Claim C9: an empty key produces exactly the unkeyed engine, hence the
same digest for every message, in both variants. -/
theorem empty_key_collapse :
    (∀ m : List Nat, Blake2b.hashKeyed [] m = Blake2b.hash m) ∧
    (∀ m : List Nat, Blake2s.hashKeyed [] m = Blake2s.hash m) :=
  ⟨fun _ => rfl, fun _ => rfl⟩

/-- Claim C10 (amended): whenever `Write` returns (does not panic), the
returned pair is `(0, nil)`, in both variants. -/
theorem write_returns_zero_nil :
    (∀ (d : Blake2b.Digest) (m : List Nat),
        (Blake2b.write d m).elim True (fun r => r.2 = (0, none))) ∧
    (∀ (d : Blake2s.Digest) (m : List Nat),
        (Blake2s.write d m).elim True (fun r => r.2 = (0, none))) := by
  constructor
  · intro d m
    cases h : Blake2b.writeLoop m d 0 m.length <;> simp [Blake2b.write, h]
  · intro d m
    cases h : Blake2s.writeLoop m d 0 m.length <;> simp [Blake2s.write, h]

/-- Claim C10 (counterexample): for one state and input the 32-bit `Write`
does not return at all (slice panic), so it does not return `(0, nil)`
there. -/
theorem write_does_not_return :
    Blake2s.write Blake2s.new (List.replicate 193 1) = none := by
  rw [Blake2s.write_eq_writeF32]
  decide

/-- Claim C5 (counterexample): 64-bit initialization with a 65-byte key
yields exactly the engine of its 64-byte prefix — the key is silently
truncated and no error of any kind is raised (initialization has no
error channel). -/
theorem long_key_silently_truncated :
    Blake2b.resetWith (List.replicate 65 1) = Blake2b.resetWith (List.replicate 64 1) := by
  rw [Blake2b.resetWith_truncates (List.replicate 65 1) (by decide),
      List.take_replicate, (by decide : min Blake2b.KeySize 65 = 64)]

/-- Claim C5 (amended): initialization with a key longer than `KeySize`
silently truncates it to its first `KeySize` bytes — the resulting
engine is identical to the one keyed with the truncated key — and no
error of any kind is raised (initialization has no error channel), in
both variants. -/
theorem long_key_truncated :
    (∀ k : List Nat, Blake2b.KeySize < k.length →
        Blake2b.resetWith k = Blake2b.resetWith (k.take Blake2b.KeySize)) ∧
    (∀ k : List Nat, Blake2s.KeySize < k.length →
        Blake2s.resetWith k = Blake2s.resetWith (k.take Blake2s.KeySize)) :=
  ⟨fun k hk => Blake2b.resetWith_truncates k hk, fun k hk => Blake2s.resetWith_truncates32 k hk⟩

/-- Witness for `long_key_truncated` at concrete 65- and 33-byte keys. -/
theorem long_key_truncated_witness :
    Blake2b.KeySize < (List.replicate 65 (3 : Nat)).length ∧
    Blake2b.resetWith (List.replicate 65 3)
      = Blake2b.resetWith ((List.replicate 65 (3 : Nat)).take Blake2b.KeySize) ∧
    Blake2s.KeySize < (List.replicate 33 (3 : Nat)).length ∧
    Blake2s.resetWith (List.replicate 33 3)
      = Blake2s.resetWith ((List.replicate 33 (3 : Nat)).take Blake2s.KeySize) :=
  ⟨by decide, long_key_truncated.1 (List.replicate 65 3) (by decide),
   by decide, long_key_truncated.2 (List.replicate 33 3) (by decide)⟩

/-- Claim C8: the unkeyed digests of the empty input and of `"abc"` equal
the RFC 7693 reference vectors, for both variants. -/
theorem known_vectors :
    Blake2b.hash [] = some
      [0x78, 0x6a, 0x02, 0xf7, 0x42, 0x01, 0x59, 0x03, 0xc6, 0xc6, 0xfd, 0x85, 0x25, 0x52,
       0xd2, 0x72, 0x91, 0x2f, 0x47, 0x40, 0xe1, 0x58, 0x47, 0x61, 0x8a, 0x86, 0xe2, 0x17,
       0xf7, 0x1f, 0x54, 0x19, 0xd2, 0x5e, 0x10, 0x31, 0xaf, 0xee, 0x58, 0x53, 0x13, 0x89,
       0x64, 0x44, 0x93, 0x4e, 0xb0, 0x4b, 0x90, 0x3a, 0x68, 0x5b, 0x14, 0x48, 0xb7, 0x55,
       0xd5, 0x6f, 0x70, 0x1a, 0xfe, 0x9b, 0xe2, 0xce] ∧
    Blake2b.hash [0x61, 0x62, 0x63] = some
      [0xba, 0x80, 0xa5, 0x3f, 0x98, 0x1c, 0x4d, 0x0d, 0x6a, 0x27, 0x97, 0xb6, 0x9f, 0x12,
       0xf6, 0xe9, 0x4c, 0x21, 0x2f, 0x14, 0x68, 0x5a, 0xc4, 0xb7, 0x4b, 0x12, 0xbb, 0x6f,
       0xdb, 0xff, 0xa2, 0xd1, 0x7d, 0x87, 0xc5, 0x39, 0x2a, 0xab, 0x79, 0x2d, 0xc2, 0x52,
       0xd5, 0xde, 0x45, 0x33, 0xcc, 0x95, 0x18, 0xd3, 0x8a, 0xa8, 0xdb, 0xf1, 0x92, 0x5a,
       0xb9, 0x23, 0x86, 0xed, 0xd4, 0x00, 0x99, 0x23] ∧
    Blake2s.hash [] = some
      [0x69, 0x21, 0x7a, 0x30, 0x79, 0x90, 0x80, 0x94, 0xe1, 0x11, 0x21, 0xd0, 0x42, 0x35,
       0x4a, 0x7c, 0x1f, 0x55, 0xb6, 0x48, 0x2c, 0xa1, 0xa5, 0x1e, 0x1b, 0x25, 0x0d, 0xfd,
       0x1e, 0xd0, 0xee, 0xf9] ∧
    Blake2s.hash [0x61, 0x62, 0x63] = some
      [0x50, 0x8c, 0x5e, 0x8c, 0x32, 0x7c, 0x14, 0xe2, 0xe1, 0xa7, 0x2b, 0xa3, 0x4e, 0xeb,
       0x45, 0x2f, 0x37, 0x45, 0x8b, 0x20, 0x9e, 0xd6, 0x3a, 0x29, 0x4d, 0x99, 0x9b, 0x4c,
       0x86, 0x67, 0x59, 0x82] := by
  refine ⟨?_, ?_, ?_, ?_⟩ <;>
    simp only [Blake2b.hash, Blake2s.hash, Blake2b.write_eq_writeF, Blake2s.write_eq_writeF32] <;>
    decide

set_option maxHeartbeats 4000000 in
/-- Claim C2 (code bug): on the 64-bit variant, absorbing the 385-byte
message `m385` in one `Write` yields a different digest than absorbing
its first 256 bytes and then its remaining 129 bytes in two `Write`s:
the single call copies `buf[:fill]` where bytes `256..384` of the input
are due, mixing in bytes `0..128` again. -/
theorem single_write_differs_from_split :
    Blake2b.hash m385 ≠ Blake2b.hashSplit (m385.take 256) (m385.drop 256) := by
  simp only [Blake2b.hash, Blake2b.hashSplit, Blake2b.write_eq_writeF]
  decide

/-- The source closure `G` and the spec mixing step are the same
function of the 64-bit variant. -/
theorem Blake2b.G_eq_mixSpec : Blake2b.G = Blake2b.mixSpec := rfl

/-- The source closure `G` and the spec mixing step are the same
function of the 32-bit variant. -/
theorem Blake2s.G_eq_mixSpec32 : Blake2s.G = Blake2s.mixSpec := rfl

/-- Row `r < 12` of the source's 12-row sigma table is row `r % 10` of
the 10-row base table. -/
theorem Blake2b.sigma_rows : ∀ r : Nat, r < 12 →
    Blake2b.sigma.getD r [] = Blake2s.sigma.getD (r % 10) [] := by
  decide

/-- Row `r < 10` of the 10-row sigma table is its own row `r % 10`. -/
theorem Blake2s.sigma_rows32 : ∀ r : Nat, r < 10 →
    Blake2s.sigma.getD r [] = Blake2s.sigma.getD (r % 10) [] := by
  decide

/-- For round indices below 12, the source round computes the spec
round of the 64-bit variant. -/
theorem Blake2b.roundFn_eq_roundSpec (m : Nat → Nat) (v : List Nat) (r : Nat) (hr : r < 12) :
    Blake2b.roundFn m r v = Blake2b.roundSpec m r v := by
  simp only [Blake2b.roundFn, Blake2b.roundSpec, Blake2b.sig, Blake2b.sigSpec,
    Blake2b.sigma_rows r hr, Blake2b.G_eq_mixSpec]

/-- For round indices below 10, the source round computes the spec
round of the 32-bit variant. -/
theorem Blake2s.roundFn_eq_roundSpec32 (m : Nat → Nat) (v : List Nat) (r : Nat) (hr : r < 10) :
    Blake2s.roundFn m r v = Blake2s.roundSpec m r v := by
  simp only [Blake2s.roundFn, Blake2s.roundSpec, Blake2s.sig, Blake2s.sigSpec,
    Blake2s.sigma_rows32 r hr, Blake2s.G_eq_mixSpec32]

/-- The 12 source rounds compute the 12 spec rounds. -/
theorem Blake2b.rounds_eq (m : Nat → Nat) (v : List Nat) :
    (List.range 12).foldl (fun v r => Blake2b.roundFn m r v) v
      = (List.range 12).foldl (fun v r => Blake2b.roundSpec m r v) v :=
  List.foldl_ext _ _ v (fun v r hr => Blake2b.roundFn_eq_roundSpec m v r (List.mem_range.mp hr))

/-- The 10 source rounds compute the 10 spec rounds, 32-bit variant. -/
theorem Blake2s.rounds_eq32 (m : Nat → Nat) (v : List Nat) :
    (List.range 10).foldl (fun v r => Blake2s.roundFn m r v) v
      = (List.range 10).foldl (fun v r => Blake2s.roundSpec m r v) v :=
  List.foldl_ext _ _ v (fun v r hr => Blake2s.roundFn_eq_roundSpec32 m v r (List.mem_range.mp hr))

/-- Claim C3: in both variants, `compress` computes exactly the spec's
compression: work vector `v[0..8) = h`, `v[8..12) = IV[0..4)`,
`v[12] = t0 XOR IV[4]`, `v[13] = t1 XOR IV[5]`, `v[14] = f0 XOR IV[6]`,
`v[15] = f1 XOR IV[7]`; `R` rounds (12 wide, 10 narrow) of eight
sigma-indexed mixing steps with rotations `(32,24,16,63)` resp.
`(16,12,8,7)` modulo `2^W`; then `h[i] = h[i] XOR v[i] XOR v[i+8]` —
and it changes no state besides `h` (and the ghost compress counter). -/
theorem compress_matches_spec :
    (∀ d : Blake2b.Digest,
        Blake2b.compress d =
          { d with
              h := Blake2b.specNewH d.h (fun i => leRead 8 (d.buf.drop (8 * i)))
                     d.t0 d.t1 d.f0 d.f1,
              cnt := d.cnt + 1 }) ∧
    (∀ d : Blake2s.Digest,
        Blake2s.compress d =
          { d with
              h := Blake2s.specNewH d.h (fun i => leRead 4 (d.buf.drop (4 * i)))
                     d.t0 d.t1 d.f0 d.f1,
              cnt := d.cnt + 1 }) := by
  constructor
  · intro d
    simp only [Blake2b.compress, Blake2b.specNewH, Blake2b.rounds_eq]
  · intro d
    simp only [Blake2s.compress, Blake2s.specNewH, Blake2s.rounds_eq32]

/-- Loop invariant of the 64-bit `Write`: starting below the buffer
capacity, the loop never panics, and the final state is below capacity
and preserves `cnt + (buflen + remaining - 1) / B`, whose `(x - 1) / B`
summand counts the non-final compressions still owed when `x`
buffered-plus-incoming bytes remain.  `k` bounds the loop's termination
measure. -/
theorem Blake2b.writeLoop_count (k : Nat) :
    ∀ (orig : List Nat) (d : Blake2b.Digest) (offset inlen : Nat),
      2 * inlen + d.buflen / (2 * Blake2b.BlockSize) ≤ k →
      d.buflen ≤ 2 * Blake2b.BlockSize → offset + inlen = orig.length →
      (Blake2b.writeLoop orig d offset inlen).isSome = true ∧
      ∀ d', Blake2b.writeLoop orig d offset inlen = some d' →
        d'.buflen ≤ 2 * Blake2b.BlockSize ∧
        d'.cnt + (d'.buflen - 1) / Blake2b.BlockSize
          = d.cnt + (d.buflen + inlen - 1) / Blake2b.BlockSize := by
  induction k with
  | zero =>
    intro orig d offset inlen hk hb hlen
    have h1 : inlen = 0 := by
      simp only [Blake2b.BlockSize] at hk
      omega
    subst h1
    refine ⟨?_, ?_⟩
    · rw [Blake2b.writeLoop]
      simp
    · intro d' heq
      rw [Blake2b.writeLoop] at heq
      simp at heq
      subst heq
      exact ⟨hb, by simp⟩
  | succ k ih =>
    intro orig d offset inlen hk hb hlen
    by_cases h1 : inlen = 0
    · subst h1
      refine ⟨?_, ?_⟩
      · rw [Blake2b.writeLoop]
        simp
      · intro d' heq
        rw [Blake2b.writeLoop] at heq
        simp at heq
        subst heq
        exact ⟨hb, by simp⟩
    · have h2 : ¬ 2 * Blake2b.BlockSize < d.buflen := by omega
      by_cases h3 : 2 * Blake2b.BlockSize - d.buflen < inlen
      · have h4 : ¬ orig.length < 2 * Blake2b.BlockSize - d.buflen := by omega
        refine ⟨?_, ?_⟩
        · rw [Blake2b.writeLoop]
          simp only [if_neg h1, if_neg h2, if_pos h3, if_neg h4]
          refine (ih orig _ _ _ ?_ ?_ ?_).1
          · dsimp only
            simp only [Blake2b.BlockSize] at *
            omega
          · dsimp only
            simp only [Blake2b.BlockSize] at *
            omega
          · omega
        · intro d' heq
          rw [Blake2b.writeLoop] at heq
          simp only [if_neg h1, if_neg h2, if_pos h3, if_neg h4] at heq
          have hrec := (ih orig _ _ _
            (by dsimp only; simp only [Blake2b.BlockSize] at *; omega)
            (by dsimp only; simp only [Blake2b.BlockSize] at *; omega)
            (by omega)).2 d' heq
          refine ⟨hrec.1, ?_⟩
          rw [hrec.2]
          dsimp only
          simp only [Blake2b.cnt_compress, Blake2b.cnt_incrementCounter,
            Blake2b.BlockSize] at *
          omega
      · have h4 : ¬ orig.length < offset := by omega
        refine ⟨?_, ?_⟩
        · rw [Blake2b.writeLoop]
          simp only [if_neg h1, if_neg h2, if_neg h3, if_neg h4]
          rfl
        · intro d' heq
          rw [Blake2b.writeLoop] at heq
          simp only [if_neg h1, if_neg h2, if_neg h3, if_neg h4, Option.some.injEq] at heq
          subst heq
          refine ⟨?_, ?_⟩ <;> (dsimp only; try omega)

/-- Claim C7: on a fresh unkeyed 64-bit engine, a single `Write` of any
message never panics, exactly `(len - 1) / B` non-final compressions
happen before the final one (counting `Sum`'s catch-up compression of a
more-than-one-block leftover; `(0 - 1) / B = 0` covers `len = 0`), and
`Sum` performs exactly one additional (final) compression. -/
theorem compression_count (m : List Nat) :
    ∃ d1 : Blake2b.Digest,
      Blake2b.write Blake2b.new m = some (d1, 0, none) ∧
      d1.cnt + (if Blake2b.BlockSize < d1.buflen then 1 else 0)
        = (m.length - 1) / Blake2b.BlockSize ∧
      (Blake2b.sum d1 []).1.cnt = (m.length - 1) / Blake2b.BlockSize + 1 := by
  have hc0 : Blake2b.new.cnt = 0 := rfl
  have hb0 : Blake2b.new.buflen = 0 := rfl
  have h := Blake2b.writeLoop_count (2 * m.length + 1) m Blake2b.new 0 m.length
    (by rw [hb0]; simp only [Nat.zero_div]; omega) (by decide) (by omega)
  obtain ⟨d1, hw⟩ := Option.isSome_iff_exists.mp h.1
  obtain ⟨hble, hcnt⟩ := h.2 d1 hw
  have hpre : d1.cnt + (if Blake2b.BlockSize < d1.buflen then 1 else 0)
      = (m.length - 1) / Blake2b.BlockSize := by
    simp only [Blake2b.BlockSize] at *
    split <;> omega
  refine ⟨d1, ?_, hpre, ?_⟩
  · unfold Blake2b.write
    rw [hw]
    rfl
  · rw [Blake2b.sum_cnt, hpre]
